import Mathlib

/-!
Verification development for the Heston calibration script
(`heston_calibration.py`).  The data model and the operations the
script performs are embedded as executable Lean definitions over `ℚ`;
the external pricers (`black_scholes_calculator`, `heston_vanilla_pricer`)
are kept abstract as function parameters, with their batched behaviour
modelled from the documented interface.
-/

namespace HestonCalib

/-- Option side, the `'call' / 'put'` strings of the `Option type` column. -/
inductive Side where
  | call : Side
  | put : Side
deriving DecidableEq, Repr

/-- One row of the prepared DataFrame `df`: the columns the calibration core
reads (`To expiry`, `Strike`, `Risk Free`, `Impl (Yld)`, `IV`,
`Market call price`, `Market put price`, `Market price`, `Vega`,
`Option type`). -/
structure Quote where
  T : ℚ
  K : ℚ
  r : ℚ
  q : ℚ
  iv : ℚ
  callPrice : ℚ
  putPrice : ℚ
  marketPrice : ℚ
  vega : ℚ
  side : Side
deriving DecidableEq, Repr

/-- A scalar characteristic-function pricer: arguments
`T K S0 r q side heston_params N`, mirroring
`hp.vanilla_price(T, K, option_params=(S0, r, q), heston_params, option_type, N)`
on a single strike.  The pricer itself is an external collaborator, so the
whole development is parametric in it. -/
abbrev Oracle := ℚ → ℚ → ℚ → ℚ → ℚ → Side → List ℚ → ℕ → ℚ

/-- Default quote used only to make positional lookups total; every lookup the
definitions perform is at an in-range position. -/
def dfltQuote : Quote :=
  { T := 0, K := 0, r := 0, q := 0, iv := 0, callPrice := 0, putPrice := 0,
    marketPrice := 0, vega := 0, side := Side.call }

/-- The quote at row position `i` of the table. -/
def qAt (df : List Quote) (i : ℕ) : Quote := (df.get? i).getD dfltQuote

/-- `np.unique(T)`: the distinct maturities of the table.  `np.unique` returns
them sorted; the order in which the groups are processed affects neither the
scattered result nor the number of batch calls, so we use `List.dedup`. -/
def uniqT (df : List Quote) : List ℚ := (df.map fun qt => qt.T).dedup

/-- `np.where(T == Tj)[0]`: the row positions whose maturity equals `Tj`. -/
def idxs (df : List Quote) (Tj : ℚ) : List ℕ :=
  (List.range df.length).filter fun i => decide ((qAt df i).T = Tj)

/-- `rj = float(r[idx][0])`, `qj = float(q[idx][0])`: the rate and yield of the
first row of the maturity group, used for the whole batch. -/
def repRQ (df : List Quote) (Tj : ℚ) : ℚ × ℚ :=
  match (idxs df Tj).head? with
  | some j => ((qAt df j).r, (qAt df j).q)
  | none => (0, 0)

/-- Modelled from the spec: `hp.vanilla_price` (module `heston_vanilla_pricer`,
not present under `src/`) accepts a batch of strikes with a per-element side
vector, a shared maturity, rate and yield, and returns one price per strike,
elementwise. -/
def vanillaPriceBatch (op : Oracle) (Tj : ℚ) (Ks : List ℚ) (S0 r0 q0 : ℚ)
    (sides : List Side) (hp : List ℚ) (N : ℕ) : List ℚ :=
  (Ks.zip sides).map fun p => op Tj p.1 S0 r0 q0 p.2 hp N

/-- The body of the `for Tj in uniq_T` loop (lines 216-231): for every distinct
maturity, gather the group's strikes and sides, take the first row's rate and
yield, price the whole batch with one Oracle call (`N=185`), and pair each
price with its original row position. -/
def groupPairs (op : Oracle) (S0 : ℚ) (hp : List ℚ) (df : List Quote) :
    List (ℕ × ℚ) :=
  (uniqT df).flatMap fun Tj =>
    let g := idxs df Tj
    g.zip (vanillaPriceBatch op Tj (g.map fun i => (qAt df i).K) S0
      (repRQ df Tj).1 (repRQ df Tj).2 (g.map fun i => (qAt df i).side) hp 185)

/-- `model_prices[idx] = pj`: scatter the batched prices back into row
positions (`np.empty_like` storage, every position written exactly once). -/
def scatterPrices (n : ℕ) (prs : List (ℕ × ℚ)) : List ℚ :=
  (List.range n).map fun i => (prs.lookup i).getD 0

/-- The `model_prices` array of `loss_function`. -/
def modelPrices (op : Oracle) (S0 : ℚ) (hp : List ℚ) (df : List Quote) :
    List ℚ :=
  scatterPrices df.length (groupPairs op S0 hp df)

/-- `np.mean`; numpy yields `nan` on an empty array, the claims only evaluate
this on non-empty tables. -/
def mean (xs : List ℚ) : ℚ := xs.sum / xs.length

/-- `np.maximum(df["Vega"].to_numpy(), vega_floor)`: the floor argument is
either a scalar (the declared default `1e-12`) or — as at the actual call
sites — a full market-price array, which numpy broadcasts elementwise. -/
def applyFloor (vs : List ℚ) : Sum ℚ (List ℚ) → List ℚ
  | Sum.inl c => vs.map fun v => max v c
  | Sum.inr fs => List.zipWith max vs fs

/-- `loss_function(heston_params, df, market_prices, vega_floor=1e-12)`
(lines 198-234).  The `market_prices` parameter is reassigned from
`df['Market price']` (line 209) before any use, so it is dead and of
arbitrary type here. -/
def loss_function {α : Type} (op : Oracle) (S0 : ℚ) (heston_params : List ℚ)
    (df : List Quote) (market_prices : α) (vega_floor : Sum ℚ (List ℚ)) : ℚ :=
  let market := df.map fun qt => qt.marketPrice
  let vega := applyFloor (df.map fun qt => qt.vega) vega_floor
  let model := modelPrices op S0 heston_params df
  mean (List.zipWith (fun mv v => ((mv.1 - mv.2) / v) ^ 2) (market.zip model) vega)

/-- The value the three optimizer call sites actually compute
(lines 255, 290, 368-375 and 381-387): positionally, `option_args` lands in
the dead `market_prices` parameter and the market-price array
(`mkt_arr` / `df['Market price']`) lands in `vega_floor`. -/
def callSiteLoss (op : Oracle) (S0 : ℚ) (hp : List ℚ) (df : List Quote) : ℚ :=
  loss_function op S0 hp df () (Sum.inr (df.map fun qt => qt.marketPrice))

/-- Per-row characterization of the grouped computation: each row priced with
its own maturity, strike and side, and with the rate/yield of the first row
sharing its maturity. -/
def reprPrice (op : Oracle) (S0 : ℚ) (hp : List ℚ) (df : List Quote)
    (qt : Quote) : ℚ :=
  op qt.T qt.K S0 (repRQ df qt.T).1 (repRQ df qt.T).2 qt.side hp 185

/-- Pricing one quote individually with its own row data: the spec's row-wise
reference computation. -/
def rowPrice (op : Oracle) (S0 : ℚ) (hp : List ℚ) (qt : Quote) : ℚ :=
  op qt.T qt.K S0 qt.r qt.q qt.side hp 185

/-- The spec's row-wise reference loss: price each quote individually with the
same Oracle, then apply the identical aggregation formula. -/
def lossRowwise (op : Oracle) (S0 : ℚ) (hp : List ℚ) (df : List Quote)
    (floor : ℚ) : ℚ :=
  let market := df.map fun qt => qt.marketPrice
  let vega := (df.map fun qt => qt.vega).map fun v => max v floor
  let model := df.map (rowPrice op S0 hp)
  mean (List.zipWith (fun mv v => ((mv.1 - mv.2) / v) ^ 2) (market.zip model) vega)

/-- The evaluator's value written with the per-row characterization
`reprPrice` (no grouping, no bounds guard). -/
def lossViaRows (op : Oracle) (S0 : ℚ) (hp : List ℚ) (df : List Quote)
    (floor : ℚ) : ℚ :=
  let market := df.map fun qt => qt.marketPrice
  let vega := (df.map fun qt => qt.vega).map fun v => max v floor
  let model := df.map (reprPrice op S0 hp df)
  mean (List.zipWith (fun mv v => ((mv.1 - mv.2) / v) ^ 2) (market.zip model) vega)

/-- One batched Oracle invocation happens per element of `uniqT` in
`groupPairs`. -/
def oracleCallCount (df : List Quote) : ℕ := (uniqT df).length

/-- The `bounds` list (lines 314-321); `(-0.0, 0.0)` for lambda equals
`(0, 0)` over ℚ. -/
def bounds : List (ℚ × ℚ) :=
  [(1/10^4, 1), (1/10^4, 15), (1/10^4, 1), (1/10^4, 2), (-(9/10), 1/10), (0, 0)]

/-- Membership of a parameter vector in the box `bounds` (componentwise,
inclusive, as scipy treats bound pairs). -/
def inBounds (x : List ℚ) : Bool :=
  decide (x.length = bounds.length) &&
    (x.zip bounds).all fun p => decide (p.2.1 ≤ p.1) && decide (p.1 ≤ p.2.2)

/-- `(df['Strike'] - S0).abs().idxmin()` followed by the `IV` lookup: the quote
whose strike is closest to spot, first row on ties (pandas `idxmin`). -/
def atmQuote (S0 : ℚ) (df : List Quote) : Option Quote :=
  match df with
  | [] => none
  | q :: qs =>
      some (qs.foldl (fun b c => if |c.K - S0| < |b.K - S0| then c else b) q)

/-- The seed vector `x0` (lines 304-311):
`v0 = max(1e-6, iv_atm^2)`, `theta = v0`, `kappa = 3`, `sigma = 0.5`,
`rho = -0.5`, `lambda = 0`.  An empty table would make `idxmin` raise; here it
yields `[]`, and the claims only use non-empty tables. -/
def x0 (S0 : ℚ) (df : List Quote) : List ℚ :=
  match atmQuote S0 df with
  | none => []
  | some qa =>
      let v0 := max (1/10^6) (qa.iv ^ 2)
      [v0, 3, v0, 1/2, -(1/2), 0]

/-- `put = call + K*exp(-r*T) - S0*exp(-q*T)` (column `Market put price C/P`,
lines 150-154).  The exponential is kept abstract as `ex`: the parity check's
comparison logic is independent of it. -/
def parityRefPut (ex : ℚ → ℚ) (S0 : ℚ) (qt : Quote) : ℚ :=
  qt.callPrice + qt.K * ex (-(qt.r * qt.T)) - S0 * ex (-(qt.q * qt.T))

/-- `df['Market put price'] - df['Market put price C/P']`. -/
def parityDiffs (ex : ℚ → ℚ) (S0 : ℚ) (df : List Quote) : List ℚ :=
  df.map fun qt => qt.putPrice - parityRefPut ex S0 qt

/-- `np.max`; numpy raises on an empty array, the claims only evaluate this on
non-empty tables. -/
def listMax : List ℚ → ℚ
  | [] => 0
  | h :: t => t.foldl max h

/-- The printed market parity check (lines 155-156):
`np.max(df['Market put price'] - df['Market put price C/P']) < 1e-10` —
note the maximum of the *signed* differences. -/
def marketParityCheck (ex : ℚ → ℚ) (S0 : ℚ) (df : List Quote) : Bool :=
  decide (listMax (parityDiffs ex S0 df) < 1/10^10)

/-- Which stages the straight-line script reaches. -/
structure RunTrace where
  parityOk : Bool
  globalEntered : Bool
  localEntered : Bool
deriving DecidableEq, Repr

/-- The script's control flow around the market parity check: the boolean is
printed (line 155) and execution falls through to `differential_evolution`
(lines 368-375) and then `minimize` (lines 381-387); no statement branches on
the parity result. -/
def scriptControlFlow (ex : ℚ → ℚ) (S0 : ℚ) (df : List Quote) : RunTrace :=
  { parityOk := marketParityCheck ex S0 df
    globalEntered := true
    localEntered := true }

/-- `PATIENCE_CB = 8` (line 243). -/
def PATIENCE_CB : ℕ := 8

/-- `MIN_REL_IMPROV = 1e-5` (line 244). -/
def MIN_REL_IMPROV : ℚ := 1/10^5

/-- `MIN_ABS_IMPROV = 1e-6` (line 245). -/
def MIN_ABS_IMPROV : ℚ := 1/10^6

/-- `MAX_SECONDS_CB = None` (line 246). -/
def MAX_SECONDS_CB : Option ℚ := none

/-- The DE callback state dict (line 251).  `best : Option ℚ` with `none`
standing for the initial `np.inf`. -/
structure CalState where
  best : Option ℚ
  bestX : Option (List ℚ)
  iters : ℕ
  stale : ℕ
deriving DecidableEq, Repr

/-- `state = {"best": np.inf, "best_x": None, "iters": 0, "stale": 0}`. -/
def state : CalState := { best := none, bestX := none, iters := 0, stale := 0 }

/-- The improvement test of `callback_ga` (lines 258-261).  `prev = none`
models `prev = np.inf`, where in float arithmetic `cur < prev` holds,
`rel_impr = inf/inf = nan > MIN_REL_IMPROV` is false and
`abs_impr = inf > MIN_ABS_IMPROV` is true, hence `improved` is true for every
finite `cur`. -/
def improvedTest (prev : Option ℚ) (cur : ℚ) : Bool :=
  match prev with
  | none => true
  | some p =>
      decide (cur < p) &&
        (decide ((p - cur) / max |p| (1/10^12) > MIN_REL_IMPROV) ||
          decide (p - cur > MIN_ABS_IMPROV))

/-- `callback_ga(xk, convergence)` (lines 253-282) as a state transition.
`cur` is the recomputed loss at `xk`; `elapsed` the wall-clock seconds; the
returned boolean is the early-stop signal.  The time trigger is checked first
and the result is the disjunction, as in the early returns of the source. -/
def callback_ga (st : CalState) (xk : List ℚ) (cur elapsed : ℚ)
    (maxSeconds : Option ℚ) : CalState × Bool :=
  let st1 : CalState := { st with iters := st.iters + 1 }
  let st2 : CalState :=
    if improvedTest st1.best cur then { st1 with best := some cur, stale := 0 }
    else { st1 with stale := st1.stale + 1 }
  let stopTime : Bool :=
    match maxSeconds with
    | some m => decide (elapsed ≥ m)
    | none => false
  let stopPatience : Bool :=
    decide (PATIENCE_CB ≠ 0) && decide (st2.stale ≥ PATIENCE_CB)
  (st2, stopTime || stopPatience)

/-- Feed a synthetic sequence of losses to `callback_ga` (with `elapsed = 0`
and the configured `MAX_SECONDS_CB = None`), collecting the final state and
the stop signals in order. -/
def runCallbacks : CalState → List ℚ → CalState × List Bool
  | st, [] => (st, [])
  | st, c :: cs =>
      let r := callback_ga st [] c 0 MAX_SECONDS_CB
      let rest := runCallbacks r.1 cs
      (rest.1, r.2 :: rest.2)

/-- Strict order on stored best losses, `none` standing for the initial
`np.inf`: any finite value is below it. -/
def bestLt : Option ℚ → Option ℚ → Prop
  | some _, none => True
  | some a, some b => a < b
  | none, _ => False

/-- A stand-in scalar Oracle used for the concrete tables of counterexamples:
it prices everything at 0, which the aggregation-level claims are indifferent
to. -/
def opZero : Oracle := fun _ _ _ _ _ _ _ _ => 0

/-- A stand-in exponential agreeing with the real one on the inputs the
concrete parity tables use (`r = q = 0`, so `exp 0 = 1`). -/
def exOne : ℚ → ℚ := fun _ => 1

/-- A one-row table used by the concrete counterexamples: vega 2 and market
price 10, so that the two vega-floor conventions weight the error
differently. -/
def dfOne : List Quote :=
  [{ T := 1, K := 100, r := 0, q := 0, iv := 1/5, callPrice := 0, putPrice := 0,
     marketPrice := 10, vega := 2, side := Side.call }]

/-- An out-of-bounds parameter vector: its `v0` component 5 exceeds the upper
bound 1. -/
def xOut : List ℚ := [5, 3, 1/2, 1/2, -(1/2), 0]

/-- A quote whose observed put price is 2 BELOW the parity-implied put: with
`r = q = 0` the reference is `10 + 95 - 100 = 5` while the stored put is 3. -/
def qLow : Quote :=
  { T := 1, K := 95, r := 0, q := 0, iv := 1/5, callPrice := 10, putPrice := 3,
    marketPrice := 10, vega := 2, side := Side.put }

/-- A quote whose observed put price is 2 ABOVE the parity-implied put, so
the printed parity check is genuinely false on it. -/
def qHigh : Quote :=
  { T := 1, K := 95, r := 0, q := 0, iv := 1/5, callPrice := 10, putPrice := 7,
    marketPrice := 10, vega := 2, side := Side.put }

/-- A one-row table whose implied volatility is 200 percent: the squared IV, 4,
exceeds the `v0` upper bound 1. -/
def dfBigIV : List Quote :=
  [{ T := 1, K := 100, r := 0, q := 0, iv := 2, callPrice := 0, putPrice := 0,
     marketPrice := 10, vega := 2, side := Side.call }]

/-- A quote with a moderate implied volatility (20 percent), whose squared IV
lies inside the `v0` bounds. -/
def qSeedW : Quote :=
  { T := 1, K := 100, r := 0, q := 0, iv := 1/5, callPrice := 10, putPrice := 10,
    marketPrice := 10, vega := 30, side := Side.call }

/-- A one-row table built from `qSeedW`. -/
def dfSeedW : List Quote := [qSeedW]

/-- A three-row, two-maturity table with one rate/yield point per maturity,
used as a concrete witness input. -/
def dfTwo : List Quote :=
  [{ T := 1/2, K := 90, r := 1/100, q := 0, iv := 1/5, callPrice := 12, putPrice := 2,
     marketPrice := 12, vega := 30, side := Side.call },
   { T := 1/2, K := 110, r := 1/100, q := 0, iv := 1/4, callPrice := 3, putPrice := 13,
     marketPrice := 13, vega := 25, side := Side.put },
   { T := 1, K := 100, r := 2/100, q := 1/100, iv := 1/5, callPrice := 8, putPrice := 7,
     marketPrice := 8, vega := 40, side := Side.call }]

/-- The price the group loop computes for row `i` when processing maturity
`Tj`: the row's own strike and side, the group's maturity and the first group
row's rate and yield. -/
def priceAt (op : Oracle) (S0 : ℚ) (hp : List ℚ) (df : List Quote) (Tj : ℚ)
    (i : ℕ) : ℚ :=
  op Tj (qAt df i).K S0 (repRQ df Tj).1 (repRQ df Tj).2 (qAt df i).side hp 185

/-!  Helper lemmas: the grouped-and-scattered computation of `loss_function`
is characterized row by row. -/

theorem zip_self_map (g : List ℕ) (h : ℕ → ℚ) :
    g.zip (g.map h) = g.map fun i => (i, h i) := by
  induction g with
  | nil => rfl
  | cons a t ih => simp [ih]

theorem lookup_keyed (g : List ℕ) (h : ℕ → ℚ) (i : ℕ) :
    (g.map fun j => (j, h j)).lookup i = if i ∈ g then some (h i) else none := by
  induction g with
  | nil => simp
  | cons a t ih =>
    simp only [List.map_cons, List.lookup_cons]
    by_cases hia : i = a
    · subst hia; simp
    · have : (i == a) = false := by simp [hia]
      simp [this, ih, hia]

theorem lookup_append (l1 l2 : List (ℕ × ℚ)) (i : ℕ) :
    (l1 ++ l2).lookup i = (l1.lookup i).orElse fun _ => l2.lookup i := by
  induction l1 with
  | nil => simp
  | cons a t ih =>
    obtain ⟨k, v⟩ := a
    simp only [List.cons_append, List.lookup_cons]
    cases hik : i == k <;> simp [ih]

theorem mem_idxs (df : List Quote) (Tj : ℚ) (i : ℕ) :
    i ∈ idxs df Tj ↔ i < df.length ∧ (qAt df i).T = Tj := by
  simp [idxs, List.mem_filter, List.mem_range]

theorem qAt_mem (df : List Quote) (i : ℕ) (h : i < df.length) : qAt df i ∈ df := by
  unfold qAt
  rw [List.get?_eq_get h]
  exact List.get_mem df i h

theorem groupPairs_eq (op : Oracle) (S0 : ℚ) (hp : List ℚ) (df : List Quote) :
    groupPairs op S0 hp df =
      (uniqT df).flatMap fun Tj =>
        (idxs df Tj).map fun i => (i, priceAt op S0 hp df Tj i) := by
  simp only [groupPairs, vanillaPriceBatch]
  congr 1
  funext Tj
  rw [List.zip_map', List.map_map]
  exact zip_self_map (idxs df Tj) _

theorem lookup_groups (op : Oracle) (S0 : ℚ) (hp : List ℚ) (df : List Quote)
    (ts : List ℚ) (i : ℕ) (t : ℚ) (hi : i ∈ idxs df t) (ht : t ∈ ts) :
    (ts.flatMap fun Tj =>
        (idxs df Tj).map fun j => (j, priceAt op S0 hp df Tj j)).lookup i
      = some (priceAt op S0 hp df t i) := by
  induction ts with
  | nil => cases ht
  | cons s ts ih =>
    rw [List.flatMap_cons, lookup_append, lookup_keyed]
    by_cases his : i ∈ idxs df s
    · have hs : s = t := by
        have h1 := (mem_idxs df s i).1 his
        have h2 := (mem_idxs df t i).1 hi
        rw [← h1.2, h2.2]
      subst hs
      simp [his]
    · have ht2 : t ∈ ts := by
        rcases List.mem_cons.1 ht with h | h
        · exact absurd (h ▸ hi) his
        · exact h
      simp [his, ih ht2]

theorem range_map_qAt (df : List Quote) (f : Quote → ℚ) :
    (List.range df.length).map (fun i => f (qAt df i)) = df.map f := by
  induction df with
  | nil => rfl
  | cons a t ih =>
    rw [List.length_cons, List.range_succ_eq_map, List.map_cons, List.map_map]
    have hcomp : ((fun i => f (qAt (a :: t) i)) ∘ Nat.succ) = fun i => f (qAt t i) := by
      funext i
      rfl
    rw [hcomp, ih]
    rfl

theorem modelPrices_eq_map (op : Oracle) (S0 : ℚ) (hp : List ℚ) (df : List Quote) :
    modelPrices op S0 hp df = df.map (reprPrice op S0 hp df) := by
  unfold modelPrices scatterPrices
  rw [groupPairs_eq]
  have key : ∀ i ∈ List.range df.length,
      (((uniqT df).flatMap fun Tj =>
          (idxs df Tj).map fun j => (j, priceAt op S0 hp df Tj j)).lookup i).getD 0
        = reprPrice op S0 hp df (qAt df i) := by
    intro i hi
    rw [List.mem_range] at hi
    have hidx : i ∈ idxs df ((qAt df i).T) := (mem_idxs df _ i).2 ⟨hi, rfl⟩
    have ht : (qAt df i).T ∈ uniqT df := by
      unfold uniqT
      rw [List.mem_dedup]
      exact List.mem_map_of_mem _ (qAt_mem df i hi)
    rw [lookup_groups op S0 hp df _ i _ hidx ht]
    rfl
  rw [List.map_congr_left key]
  exact range_map_qAt df _

theorem loss_eq_viaRows {α : Type} (op : Oracle) (S0 : ℚ) (hp : List ℚ)
    (df : List Quote) (mp : α) (floor : ℚ) :
    loss_function op S0 hp df mp (Sum.inl floor) = lossViaRows op S0 hp df floor := by
  unfold loss_function lossViaRows
  rw [modelPrices_eq_map]
  rfl

theorem viaRows_eq_rowwise (op : Oracle) (S0 : ℚ) (hp : List ℚ) (df : List Quote)
    (floor : ℚ)
    (hsh : ∀ q1 ∈ df, ∀ q2 ∈ df, q1.T = q2.T → q1.r = q2.r ∧ q1.q = q2.q) :
    lossViaRows op S0 hp df floor = lossRowwise op S0 hp df floor := by
  have hmodel : df.map (reprPrice op S0 hp df) = df.map (rowPrice op S0 hp) := by
    apply List.map_congr_left
    intro qt hqt
    obtain ⟨n, hn⟩ := List.mem_iff_get?.1 hqt
    have hlt : n < df.length := by
      rcases List.get?_eq_some.1 hn with ⟨h, _⟩
      exact h
    have hqa : qAt df n = qt := by
      unfold qAt
      rw [hn]
      rfl
    have hnidx : n ∈ idxs df qt.T := (mem_idxs df _ n).2 ⟨hlt, by rw [hqa]⟩
    obtain ⟨j, hj⟩ : ∃ j, (idxs df qt.T).head? = some j := by
      cases hidxs : idxs df qt.T with
      | nil => rw [hidxs] at hnidx; cases hnidx
      | cons a t => exact ⟨a, rfl⟩
    have hjmem : j ∈ idxs df qt.T := List.mem_of_mem_head? hj
    have hjprop := (mem_idxs df _ j).1 hjmem
    have hq0 : qAt df j ∈ df := qAt_mem df j hjprop.1
    have hrq := hsh (qAt df j) hq0 qt hqt hjprop.2
    unfold reprPrice rowPrice repRQ
    rw [hj]
    simp only
    rw [hrq.1, hrq.2]
  unfold lossViaRows lossRowwise
  rw [hmodel]


theorem improvedTest_some_true (p cur : ℚ) (h : improvedTest (some p) cur = true) :
    cur < p := by
  unfold improvedTest at h
  rcases Bool.and_eq_true_iff.1 h with ⟨h1, _⟩
  exact of_decide_eq_true h1

theorem callback_ga_accept (st : CalState) (xk : List ℚ) (cur e : ℚ) (ms : Option ℚ)
    (h : improvedTest st.best cur = true) :
    callback_ga st xk cur e ms =
      ({ best := some cur, bestX := st.bestX, iters := st.iters + 1, stale := 0 },
        match ms with | some m => decide (e ≥ m) | none => false) := by
  unfold callback_ga
  simp [h, PATIENCE_CB]

theorem callback_ga_reject (st : CalState) (xk : List ℚ) (cur e : ℚ) (ms : Option ℚ)
    (h : improvedTest st.best cur = false) :
    callback_ga st xk cur e ms =
      ({ best := st.best, bestX := st.bestX, iters := st.iters + 1, stale := st.stale + 1 },
        (match ms with | some m => decide (e ≥ m) | none => false) ||
          decide (st.stale + 1 ≥ PATIENCE_CB)) := by
  unfold callback_ga
  simp [h, PATIENCE_CB]

theorem callback_ga_best_step (st : CalState) (xk : List ℚ) (cur e : ℚ)
    (ms : Option ℚ) :
    (callback_ga st xk cur e ms).1.best = st.best ∨
      bestLt (callback_ga st xk cur e ms).1.best st.best := by
  cases h : improvedTest st.best cur with
  | false => left; rw [callback_ga_reject st xk cur e ms h]
  | true =>
    right
    rw [callback_ga_accept st xk cur e ms h]
    cases hb : st.best with
    | none => trivial
    | some p =>
      rw [hb] at h
      exact improvedTest_some_true p cur h

theorem bestLt_trans (a b c : Option ℚ) (h1 : bestLt a b) (h2 : bestLt b c) :
    bestLt a c := by
  cases a <;> cases b <;> cases c <;> simp [bestLt] at h1 h2 ⊢
  · exact lt_trans h1 h2

theorem runCallbacks_best_mono (vs : List ℚ) (st : CalState) :
    (runCallbacks st vs).1.best = st.best ∨
      bestLt (runCallbacks st vs).1.best st.best := by
  induction vs generalizing st with
  | nil => left; rfl
  | cons c cs ih =>
    have h1 := callback_ga_best_step st [] c 0 MAX_SECONDS_CB
    have h2 := ih (callback_ga st [] c 0 MAX_SECONDS_CB).1
    simp only [runCallbacks]
    rcases h2 with h2 | h2 <;> rcases h1 with h1 | h1
    · left; rw [h2, h1]
    · right; rw [h2]; exact h1
    · right; rw [h1] at h2; exact h2
    · right; exact bestLt_trans _ _ _ h2 h1

theorem runCallbacks_cons (st : CalState) (c : ℚ) (cs : List ℚ) :
    runCallbacks st (c :: cs) =
      ((runCallbacks (callback_ga st [] c 0 MAX_SECONDS_CB).1 cs).1,
        (callback_ga st [] c 0 MAX_SECONDS_CB).2 ::
          (runCallbacks (callback_ga st [] c 0 MAX_SECONDS_CB).1 cs).2) := rfl

theorem runCallbacks_stale (v : ℚ) (rest : List ℚ) (st : CalState)
    (hbest : st.best = some v) (hmono : ∀ w ∈ rest, v ≤ w)
    (hcount : st.stale + rest.length = PATIENCE_CB) (hne : rest ≠ []) :
    (runCallbacks st rest).2 = List.replicate (rest.length - 1) false ++ [true] := by
  induction rest generalizing st with
  | nil => exact absurd rfl hne
  | cons c cs ih =>
    have hvc : v ≤ c := hmono c (List.mem_cons_self c cs)
    have himp : improvedTest st.best c = false := by
      rw [hbest]
      unfold improvedTest
      simp [not_lt.2 hvc]
    have hstep := callback_ga_reject st [] c 0 MAX_SECONDS_CB himp
    cases cs with
    | nil =>
      have h1 : (c :: ([] : List ℚ)).length = 1 := rfl
      have hstale : st.stale + 1 ≥ PATIENCE_CB := by omega
      rw [runCallbacks_cons, hstep]
      simp [runCallbacks, MAX_SECONDS_CB, hstale]
    | cons c2 cs2 =>
      have h1 : (c :: c2 :: cs2).length = cs2.length + 2 := rfl
      have h2 : (c2 :: cs2).length = cs2.length + 1 := rfl
      have hstale : ¬ st.stale + 1 ≥ PATIENCE_CB := by omega
      have hrec := ih
        { best := st.best, bestX := st.bestX, iters := st.iters + 1, stale := st.stale + 1 }
        hbest (fun w hw => hmono w (List.mem_cons_of_mem c hw))
        (by show st.stale + 1 + (c2 :: cs2).length = PATIENCE_CB; omega)
        (by simp)
      rw [runCallbacks_cons, hstep]
      simp only
      rw [hrec]
      simp [MAX_SECONDS_CB, hstale, h1, h2, List.replicate_succ]


theorem foldl_max_lt (t : List ℚ) (a c : ℚ) :
    t.foldl max a < c ↔ a < c ∧ ∀ w ∈ t, w < c := by
  induction t generalizing a with
  | nil => simp
  | cons b t ih =>
    rw [List.foldl_cons, ih, max_lt_iff, List.forall_mem_cons]
    tauto

theorem listMax_lt (h : ℚ) (t : List ℚ) (c : ℚ) :
    listMax (h :: t) < c ↔ ∀ w ∈ h :: t, w < c := by
  unfold listMax
  rw [foldl_max_lt, List.forall_mem_cons]

theorem foldl_pick_mem (S0 : ℚ) (t : List Quote) (b : Quote) :
    t.foldl (fun b c => if |c.K - S0| < |b.K - S0| then c else b) b ∈ b :: t := by
  induction t generalizing b with
  | nil => exact List.mem_singleton.2 rfl
  | cons c cs ih =>
    rw [List.foldl_cons]
    rcases List.mem_cons.1 (ih (if |c.K - S0| < |b.K - S0| then c else b)) with h | h
    · rw [h]
      by_cases hc : |c.K - S0| < |b.K - S0|
      · rw [if_pos hc]
        exact List.mem_cons_of_mem b (List.mem_cons_self c cs)
      · rw [if_neg hc]
        exact List.mem_cons_self b (c :: cs)
    · exact List.mem_cons_of_mem b (List.mem_cons_of_mem c h)

theorem foldl_pick_min (S0 : ℚ) (t : List Quote) (b : Quote) :
    ∀ q ∈ b :: t,
      |(t.foldl (fun b c => if |c.K - S0| < |b.K - S0| then c else b) b).K - S0|
        ≤ |q.K - S0| := by
  induction t generalizing b with
  | nil =>
    intro q hq
    rw [List.mem_singleton.1 hq]
    rfl
  | cons c cs ih =>
    intro q hq
    have step : |(if |c.K - S0| < |b.K - S0| then c else b).K - S0| ≤ |b.K - S0| ∧
        |(if |c.K - S0| < |b.K - S0| then c else b).K - S0| ≤ |c.K - S0| := by
      by_cases hc : |c.K - S0| < |b.K - S0|
      · rw [if_pos hc]
        exact ⟨le_of_lt hc, le_refl _⟩
      · rw [if_neg hc]
        exact ⟨le_refl _, not_lt.1 hc⟩
    have ihh := ih (if |c.K - S0| < |b.K - S0| then c else b)
    rcases List.mem_cons.1 hq with h | h
    · subst h
      exact le_trans (ihh _ (List.mem_cons_self _ _)) step.1
    · rcases List.mem_cons.1 h with h2 | h2
      · subst h2
        exact le_trans (ihh _ (List.mem_cons_self _ _)) step.2
      · exact ihh q (List.mem_cons_of_mem _ h2)

theorem atmQuote_mem_min (S0 : ℚ) (df : List Quote) (qa : Quote)
    (h : atmQuote S0 df = some qa) :
    qa ∈ df ∧ ∀ q ∈ df, |qa.K - S0| ≤ |q.K - S0| := by
  cases df with
  | nil => cases h
  | cons b t =>
    unfold atmQuote at h
    have hqa := Option.some.inj h
    constructor
    · rw [← hqa]
      exact foldl_pick_mem S0 t b
    · rw [← hqa]
      exact foldl_pick_min S0 t b


theorem inBounds_six (a b c d e f : ℚ) :
    inBounds [a, b, c, d, e, f] = true ↔
      (1/10^4 ≤ a ∧ a ≤ 1) ∧ (1/10^4 ≤ b ∧ b ≤ 15) ∧ (1/10^4 ≤ c ∧ c ≤ 1) ∧
      (1/10^4 ≤ d ∧ d ≤ 2) ∧ (-(9/10) ≤ e ∧ e ≤ 1/10) ∧ (0 ≤ f ∧ f ≤ 0) := by
  simp [inBounds, bounds, and_assoc]

/-- Claim C1: the spec states that every call site of the Loss Evaluator
computes `mean(((market − model)/max(vega, vega_floor))^2)` with `vega_floor`
defaulting to 1e-12.  In the code every call site passes the market-price
array into the `vega_floor` slot (the dead `market_prices` parameter absorbs
`option_args`), so on a one-quote table with vega 2, market price 10 and
model price 0 the call sites compute 1 while the documented formula gives
25. -/
theorem heston_c1_callsite_weight :
    callSiteLoss opZero 100 [1, 1, 1, 1, 1, 1] dfOne = 1 ∧
    loss_function opZero 100 [1, 1, 1, 1, 1, 1] dfOne () (Sum.inl (1/10^12)) = 25 ∧
    (1 : ℚ) ≠ 25 := by
  refine ⟨?_, ?_, by norm_num⟩
  · norm_num [callSiteLoss, loss_function, modelPrices, scatterPrices, groupPairs,
      uniqT, idxs, repRQ, vanillaPriceBatch, qAt, applyFloor, mean, opZero, dfOne,
      List.lookup, List.range_succ]
  · norm_num [loss_function, modelPrices, scatterPrices, groupPairs,
      uniqT, idxs, repRQ, vanillaPriceBatch, qAt, applyFloor, mean, opZero, dfOne,
      List.lookup, List.range_succ]

/-- Claim C2 counterexample: an accepted improvement (the first callback,
from best = infinity) updates the stored best loss but leaves `best_x`
untouched — still `None`, not the accepted candidate — contrary to the
claim that acceptance updates both. -/
theorem heston_c2_cex :
    improvedTest state.best 5 = true ∧
    (callback_ga state [1, 1, 1, 1, 1, 1] 5 0 none).1.best = some 5 ∧
    ¬ (callback_ga state [1, 1, 1, 1, 1, 1] 5 0 none).1.bestX = some [1, 1, 1, 1, 1, 1] := by
  refine ⟨rfl, ?_, ?_⟩
  · rw [callback_ga_accept state [1, 1, 1, 1, 1, 1] 5 0 none rfl]
  · rw [callback_ga_accept state [1, 1, 1, 1, 1, 1] 5 0 none rfl]
    simp [state]

/-- Claim C2 (amended): with a finite previous best `p`, the callback accepts
exactly when `cur < p` and (relative improvement `(p − cur)/max(|p|, 1e-12)`
exceeds MIN_REL_IMPROV or absolute improvement `p − cur` exceeds
MIN_ABS_IMPROV); acceptance sets the stored best to `cur` and resets stale to
0, rejection keeps the best and increments stale — and in both cases the
stored best parameter vector `best_x` is left unchanged (it is never
written). -/
theorem heston_c2_amended (st : CalState) (xk : List ℚ) (cur e : ℚ)
    (ms : Option ℚ) (p : ℚ) (hb : st.best = some p) :
    (callback_ga st xk cur e ms).1 =
      if cur < p ∧ ((p - cur) / max |p| (1/10^12) > MIN_REL_IMPROV ∨
          p - cur > MIN_ABS_IMPROV)
      then { best := some cur, bestX := st.bestX, iters := st.iters + 1, stale := 0 }
      else { best := st.best, bestX := st.bestX, iters := st.iters + 1,
             stale := st.stale + 1 } := by
  by_cases h : cur < p ∧ ((p - cur) / max |p| (1/10^12) > MIN_REL_IMPROV ∨
      p - cur > MIN_ABS_IMPROV)
  · have ht : improvedTest st.best cur = true := by
      rw [hb]
      simp only [improvedTest, Bool.and_eq_true, Bool.or_eq_true, decide_eq_true_eq]
      exact h
    rw [if_pos h, callback_ga_accept st xk cur e ms ht]
  · have hf : improvedTest st.best cur = false := by
      rw [hb]
      rw [Bool.eq_false_iff]
      simp only [improvedTest, Ne, Bool.and_eq_true, Bool.or_eq_true, decide_eq_true_eq]
      exact h
    rw [if_neg h, callback_ga_reject st xk cur e ms hf]

/-- Claim C2 witness: a concrete accepting step, evaluated through the
amended theorem. -/
theorem heston_c2_witness :
    (callback_ga { best := some 10, bestX := none, iters := 0, stale := 0 }
        [] 5 0 none).1 =
      { best := some 5, bestX := none, iters := 1, stale := 0 } := by
  rw [heston_c2_amended { best := some 10, bestX := none, iters := 0, stale := 0 }
    [] 5 0 none 10 rfl]
  rw [if_pos]
  constructor
  · norm_num
  · right
    norm_num [MIN_ABS_IMPROV]

/-- Claim C3: fed a synthetic loss sequence of patience+1 values none of
which improves on the first, the controller's stop signal is false on the
first `patience` callbacks and true exactly on the (patience+1)-th; and a
true stop signal can only come from the patience trigger or from the
wall-clock budget being exceeded. -/
theorem heston_c3_early_stop (v : ℚ) (rest : List ℚ)
    (hlen : rest.length = PATIENCE_CB) (hmono : ∀ w ∈ rest, v ≤ w) :
    (runCallbacks state (v :: rest)).2 = List.replicate PATIENCE_CB false ++ [true] ∧
    (∀ st xk cur e ms, (callback_ga st xk cur e ms).2 = true →
      (callback_ga st xk cur e ms).1.stale ≥ PATIENCE_CB ∨
        ∃ m, ms = some m ∧ e ≥ m) := by
  constructor
  · rw [runCallbacks_cons, callback_ga_accept state [] v 0 MAX_SECONDS_CB rfl]
    simp only [MAX_SECONDS_CB]
    have hne : rest ≠ [] := by
      intro hh
      rw [hh] at hlen
      simp [PATIENCE_CB] at hlen
    rw [runCallbacks_stale v rest
      { best := some v, bestX := state.bestX, iters := state.iters + 1, stale := 0 }
      rfl hmono (by simpa using hlen) hne]
    rw [hlen]
    rfl
  · intro st xk cur e ms h
    cases himp : improvedTest st.best cur with
    | true =>
      rw [callback_ga_accept st xk cur e ms himp] at h
      cases ms with
      | none => cases h
      | some m =>
        right
        exact ⟨m, rfl, of_decide_eq_true h⟩
    | false =>
      rw [callback_ga_reject st xk cur e ms himp] at h ⊢
      rcases Bool.or_eq_true_iff.1 h with h1 | h1
      · cases ms with
        | none => cases h1
        | some m =>
          right
          exact ⟨m, rfl, of_decide_eq_true h1⟩
      · left
        exact of_decide_eq_true h1

/-- Claim C3 witness: the constant sequence of nine losses, evaluated through
the theorem. -/
theorem heston_c3_witness :
    (runCallbacks state ((5 : ℚ) :: List.replicate PATIENCE_CB 5)).2 =
      List.replicate PATIENCE_CB false ++ [true] :=
  (heston_c3_early_stop 5 (List.replicate PATIENCE_CB 5)
    (List.length_replicate _ _)
    (fun w hw => le_of_eq (List.eq_of_mem_replicate hw).symm)).1

/-- Claim C4 counterexample: on a quote whose put price is 2 BELOW the
parity-implied put, the printed market parity check still passes (the signed
maximum −2 is below 1e-10) even though the absolute difference, 2, is far
beyond the tolerance — so the check is not the claimed absolute-value
assertion. -/
theorem heston_c4_cex :
    marketParityCheck exOne 100 [qLow] = true ∧
    ¬ |qLow.putPrice - parityRefPut exOne 100 qLow| < 1/10^10 := by
  constructor
  · norm_num [marketParityCheck, parityDiffs, parityRefPut, listMax, exOne, qLow]
  · norm_num [parityRefPut, exOne, qLow]

/-- Claim C4 (amended): the market parity check passes iff every quote's
SIGNED difference `put − (call + K·e^(−rT) − S·e^(−qT))` is below 1e-10; a
put price far below the parity-implied value does not make it fail. -/
theorem heston_c4_amended (ex : ℚ → ℚ) (S0 : ℚ) (q0 : Quote) (df : List Quote) :
    marketParityCheck ex S0 (q0 :: df) = true ↔
      ∀ qt ∈ q0 :: df, qt.putPrice - parityRefPut ex S0 qt < 1/10^10 := by
  unfold marketParityCheck parityDiffs
  rw [decide_eq_true_eq, List.map_cons, listMax_lt]
  constructor
  · intro h qt hqt
    rcases List.mem_cons.1 hqt with hq | hm
    · rw [hq]
      exact h _ (List.mem_cons_self _ _)
    · exact h _ (List.mem_cons_of_mem _ (List.mem_map_of_mem _ hm))
  · intro h w hw
    rcases List.mem_cons.1 hw with hq | hm
    · rw [hq]
      exact h q0 (List.mem_cons_self _ _)
    · obtain ⟨qt, hqt, rfl⟩ := List.mem_map.1 hm
      exact h qt (List.mem_cons_of_mem _ hqt)

/-- Claim C4 witness: the amended characterization at a concrete one-quote
table. -/
theorem heston_c4_witness :
    (marketParityCheck exOne 100 [qLow] = true ↔
      ∀ qt ∈ [qLow], qt.putPrice - parityRefPut exOne 100 qt < 1/10^10) :=
  heston_c4_amended exOne 100 qLow []

/-- Claim C5 counterexample: a table that fails the market parity check
(signed difference +2, so the printed boolean is False) still enters the
global search — the script does not halt on a parity failure. -/
theorem heston_c5_cex :
    (scriptControlFlow exOne 100 [qHigh]).parityOk = false ∧
    (scriptControlFlow exOne 100 [qHigh]).globalEntered = true := by
  constructor
  · norm_num [scriptControlFlow, marketParityCheck, parityDiffs, parityRefPut,
      listMax, exOne, qHigh]
  · rfl

/-- Claim C5 (amended): the market parity check never gates execution: for
every input the script proceeds into both the global search and the local
refinement, whatever the parity boolean came out to be; the check is
reporting only. -/
theorem heston_c5_amended (ex : ℚ → ℚ) (S0 : ℚ) (df : List Quote) :
    (scriptControlFlow ex S0 df).globalEntered = true ∧
    (scriptControlFlow ex S0 df).localEntered = true :=
  ⟨rfl, rfl⟩

/-- Claim C6 counterexample: on a table whose nearest-to-spot quote has
implied volatility 2, the seed is `[4, 3, 4, 1/2, −1/2, 0]` with
`v0 = theta = 4` above the upper bound 1 — the seed does NOT always lie in
the bounds box. -/
theorem heston_c6_cex :
    x0 100 dfBigIV = [4, 3, 4, 1/2, -(1/2), 0] ∧
    inBounds (x0 100 dfBigIV) = false := by
  have hx : x0 100 dfBigIV = [4, 3, 4, 1/2, -(1/2), 0] := by
    norm_num [x0, atmQuote, dfBigIV]
  refine ⟨hx, ?_⟩
  rw [hx]
  norm_num [inBounds, bounds]

/-- Claim C6 (amended): the seeder picks the quote with strike nearest to
spot over the whole table (first row on ties) and emits
`[max(1e-6, iv^2), 3, max(1e-6, iv^2), 1/2, −1/2, 0]`; the seed lies inside
the bounds box whenever the selected quote's squared implied volatility lies
in `[1e-4, 1]` — outside that range `v0` and `theta` can violate the box. -/
theorem heston_c6_amended (S0 : ℚ) (df : List Quote) (qa : Quote)
    (h : atmQuote S0 df = some qa) :
    x0 S0 df = [max (1/10^6) (qa.iv ^ 2), 3, max (1/10^6) (qa.iv ^ 2),
      1/2, -(1/2), 0] ∧
    qa ∈ df ∧ (∀ q ∈ df, |qa.K - S0| ≤ |q.K - S0|) ∧
    ((1/10^4 : ℚ) ≤ qa.iv ^ 2 → qa.iv ^ 2 ≤ 1 → inBounds (x0 S0 df) = true) := by
  have hseed : x0 S0 df = [max (1/10^6) (qa.iv ^ 2), 3, max (1/10^6) (qa.iv ^ 2),
      1/2, -(1/2), 0] := by
    unfold x0
    rw [h]
  have hmm := atmQuote_mem_min S0 df qa h
  refine ⟨hseed, hmm.1, hmm.2, ?_⟩
  intro h1 h2
  have hv : max (1/10^6 : ℚ) (qa.iv ^ 2) = qa.iv ^ 2 :=
    max_eq_right (le_trans (by norm_num) h1)
  rw [hseed, hv]
  rw [inBounds_six]
  refine ⟨⟨h1, h2⟩, ?_, ⟨h1, h2⟩, ?_, ?_, ?_, ?_⟩ <;> norm_num

/-- Claim C6 witness: the seed of a one-quote table with a 20 percent
implied volatility lies inside the bounds box, via the amended theorem. -/
theorem heston_c6_witness :
    inBounds (x0 100 dfSeedW) = true := by
  have h := heston_c6_amended 100 dfSeedW qSeedW rfl
  exact h.2.2.2 (by norm_num [qSeedW]) (by norm_num [qSeedW])

/-- Claim C7: when rows sharing a maturity share their rate and yield (one
curve point per maturity, the table invariant the spec documents), the
grouped/batched loss equals the row-by-row loss computed with the same scalar
Oracle and the identical aggregation; and the number of batched Oracle calls
is the number of distinct maturities, which never exceeds the number of
quotes.  The batched Oracle semantics is modelled from the spec since
`heston_vanilla_pricer` is not under `src/`. -/
theorem heston_c7_batched_vs_rowwise (op : Oracle) (S0 : ℚ) (hp : List ℚ)
    (df : List Quote) (floor : ℚ)
    (hsh : ∀ q1 ∈ df, ∀ q2 ∈ df, q1.T = q2.T → q1.r = q2.r ∧ q1.q = q2.q) :
    loss_function op S0 hp df () (Sum.inl floor) = lossRowwise op S0 hp df floor ∧
    oracleCallCount df = ((df.map fun qt => qt.T).dedup).length ∧
    oracleCallCount df ≤ df.length := by
  refine ⟨?_, rfl, ?_⟩
  · rw [loss_eq_viaRows, viaRows_eq_rowwise op S0 hp df floor hsh]
  · calc (uniqT df).length ≤ ((df.map fun qt => qt.T)).length :=
        List.Sublist.length_le (List.dedup_sublist _)
    _ = df.length := List.length_map _ _

/-- Claim C7 witness: the equivalence evaluated on a concrete three-quote,
two-maturity table. -/
theorem heston_c7_witness :
    loss_function opZero 100 [1/25, 2, 1/25, 2/5, -(3/5), 0] dfTwo ()
        (Sum.inl (1/10^12)) =
      lossRowwise opZero 100 [1/25, 2, 1/25, 2/5, -(3/5), 0] dfTwo (1/10^12) ∧
    oracleCallCount dfTwo = ((dfTwo.map fun qt => qt.T).dedup).length ∧
    oracleCallCount dfTwo ≤ dfTwo.length := by
  refine heston_c7_batched_vs_rowwise opZero 100 [1/25, 2, 1/25, 2/5, -(3/5), 0]
    dfTwo (1/10^12) ?_
  intro q1 h1 q2 h2 hT
  simp only [dfTwo, List.mem_cons, List.mem_singleton, List.not_mem_nil, or_false] at h1 h2
  rcases h1 with rfl | rfl | rfl <;> rcases h2 with rfl | rfl | rfl <;>
    first
      | exact ⟨rfl, rfl⟩
      | (exfalso; norm_num at hT)

/-- Claim C8: the stored best loss starts at infinity (`None` in the model)
and is non-increasing: every callback invocation either leaves it unchanged
or replaces it with a strictly smaller value, and hence so does any sequence
of invocations. -/
theorem heston_c8_best_monotone :
    state.best = none ∧
    (∀ st xk cur e ms, (callback_ga st xk cur e ms).1.best = st.best ∨
      bestLt (callback_ga st xk cur e ms).1.best st.best) ∧
    (∀ st vs, (runCallbacks st vs).1.best = st.best ∨
      bestLt (runCallbacks st vs).1.best st.best) :=
  ⟨rfl, callback_ga_best_step, fun st vs => runCallbacks_best_mono vs st⟩

/-- Claim C9 counterexample: the out-of-bounds vector `xOut` (its `v0`
component 5 exceeds the bound 1) reaches the Loss Evaluator and the evaluator
computes and returns an ordinary loss value, 25, rather than failing fast. -/
theorem heston_c9_cex :
    inBounds xOut = false ∧
    loss_function opZero 100 xOut dfOne () (Sum.inl (1/10^12)) = 25 := by
  constructor
  · norm_num [inBounds, bounds, xOut]
  · norm_num [loss_function, modelPrices, scatterPrices, groupPairs,
      uniqT, idxs, repRQ, vanillaPriceBatch, qAt, applyFloor, mean, opZero, dfOne,
      List.lookup, List.range_succ]

/-- Claim C9 (amended): the Loss Evaluator performs no defensive bounds
check: for any out-of-bounds parameter vector it computes and returns the
usual vega-weighted mean of squared price errors. -/
theorem heston_c9_amended (op : Oracle) (S0 : ℚ) (x : List ℚ) (df : List Quote)
    (floor : ℚ) (hx : inBounds x = false) :
    loss_function op S0 x df () (Sum.inl floor) = lossViaRows op S0 x df floor :=
  loss_eq_viaRows op S0 x df () floor

/-- Claim C9 witness: the amended theorem applied at the concrete
out-of-bounds vector. -/
theorem heston_c9_witness :
    inBounds xOut = false ∧
    loss_function opZero 100 xOut dfOne () (Sum.inl (1/10^12)) =
      lossViaRows opZero 100 xOut dfOne (1/10^12) := by
  have hx : inBounds xOut = false := by norm_num [inBounds, bounds, xOut]
  exact ⟨hx, heston_c9_amended opZero 100 xOut dfOne (1/10^12) hx⟩

/-- Claim C10: the Loss Evaluator's result does not depend on the value
passed as its third (`market_prices`) parameter — it is overwritten from the
table's market-price column before any use, so any two values (even of
different types) yield the identical loss. -/
theorem heston_c10_dead_argument {α β : Type} (op : Oracle) (S0 : ℚ)
    (hp : List ℚ) (df : List Quote) (m1 : α) (m2 : β) (vf : Sum ℚ (List ℚ)) :
    loss_function op S0 hp df m1 vf = loss_function op S0 hp df m2 vf := rfl

end HestonCalib
